import Mathlib

/-!
Verification of the nearest-neighbor `search` routine of
`src/3-nearest-neighbor-model/nearest-neighbor-model.js`.

The source computes a similarity vector `sim = ftrMatrix.multiplyT(vector)`
(one entry per stored document, each the inner product of the document's
feature vector with the query's feature vector; the feature space is
configured with `normalize: true`, so these inner products are cosine
similarities), sorts it descending with `sim.sortPerm(false)`, clamps
`maxCount` to the number of documents, and then walks the sorted permutation
from the top, stopping at the first score strictly below `minSim` or after
`maxCount` emissions, accumulating the matching ids and their scores.

Documents are embedded as rational feature vectors (`List ℚ`), the corpus as
the ordered list of them; a document's id is its index in the corpus, which
matches the source where `sort.perm[i]` is a record index into the store.
-/

namespace NNSearch

/-- Inner product of two feature vectors, the per-document computation done by
the source's `ftrMatrix.multiplyT(vector)` call. -/
def dot (a b : List ℚ) : ℚ :=
  (List.zipWith (fun x y => x * y) a b).sum

/-- Similarity vector of a corpus against a query: one score per document, in
corpus order, mirroring `let sim = ftrMatrix.multiplyT(vector)`. -/
def simVec (corpus : List (List ℚ)) (q : List ℚ) : List ℚ :=
  corpus.map (fun d => dot d q)

/-- Score of document `i` in the similarity vector, the source's `sim[maxid]`
lookup (defaulting to `0` out of range; the search only looks up indices that
come from the sort permutation, which are always in range). -/
def simD (sim : List ℚ) (i : ℕ) : ℚ :=
  sim.getD i 0

/-- Ranking order on document indices: `i` comes no later than `j` when `i`'s
score is larger, or the scores are equal and `i ≤ j`. -/
def rankLE (sim : List ℚ) (i j : ℕ) : Prop :=
  simD sim j < simD sim i ∨ (simD sim i = simD sim j ∧ i ≤ j)

instance rankLE.instDecidable (sim : List ℚ) : DecidableRel (rankLE sim) :=
  fun i j => by unfold rankLE; exact inferInstance

instance rankLE.instIsTotal (sim : List ℚ) : IsTotal ℕ (rankLE sim) := by
  constructor
  intro i j
  rcases lt_trichotomy (simD sim i) (simD sim j) with h | h | h
  · exact Or.inr (Or.inl h)
  · rcases Nat.le_total i j with hij | hij
    · exact Or.inl (Or.inr ⟨h, hij⟩)
    · exact Or.inr (Or.inr ⟨h.symm, hij⟩)
  · exact Or.inl (Or.inl h)

instance rankLE.instIsTrans (sim : List ℚ) : IsTrans ℕ (rankLE sim) := by
  constructor
  intro i j k hij hjk
  rcases hij with h1 | ⟨e1, l1⟩
  · rcases hjk with h2 | ⟨e2, _⟩
    · exact Or.inl (h2.trans h1)
    · exact Or.inl (e2 ▸ h1)
  · rcases hjk with h2 | ⟨e2, l2⟩
    · exact Or.inl (e1 ▸ h2)
    · exact Or.inr ⟨e1.trans e2, l1.trans l2⟩

/-- Modelled from the spec: descending sort permutation of the similarity
vector. The call `sim.sortPerm(false)` in the source is a QMiner
linear-algebra routine whose implementation is not part of this repository;
the descending order is what the source requests (`false` = not ascending),
and the ascending-index tie-break is the spec's determinism requirement
("break ties by ascending document id for determinism"). -/
def sortPerm (sim : List ℚ) : List ℕ :=
  List.insertionSort (rankLE sim) (List.range sim.length)

/-- Walk of the source's `for` loop (lines 233-242): consume at most the given
number of entries of the permutation from the front, breaking at the first
entry whose score is strictly below `minSim`, accumulating ids and scores. -/
def walk (sim : List ℚ) (minSim : ℚ) : ℕ → List ℕ → List ℕ × List ℚ
  | 0, _ => ([], [])
  | _ + 1, [] => ([], [])
  | n + 1, i :: rest =>
    if simD sim i < minSim then ([], [])
    else
      let r := walk sim minSim n rest
      (i :: r.1, simD sim i :: r.2)

/-- Core of the source's `search`: sort the similarity vector descending,
clamp `maxCount` to the permutation length (`if (maxCount > sort.perm.length)
maxCount = sort.perm.length`), and run the emission loop. `maxCount` is an
integer, as in the source, where a negative value simply makes the loop body
run zero times. -/
def searchSim (sim : List ℚ) (maxCount : ℤ) (minSim : ℚ) : List ℕ × List ℚ :=
  let perm := sortPerm sim
  let mc : ℤ := if (perm.length : ℤ) < maxCount then (perm.length : ℤ) else maxCount
  walk sim minSim mc.toNat perm

/-- Document ids returned by a search (the source's `idVec`). -/
def searchIds (corpus : List (List ℚ)) (q : List ℚ) (maxCount : ℤ) (minSim : ℚ) : List ℕ :=
  (searchSim (simVec corpus q) maxCount minSim).1

/-- Similarity weights returned by a search (the source's `simVec` array). -/
def searchWeights (corpus : List (List ℚ)) (q : List ℚ) (maxCount : ℤ) (minSim : ℚ) : List ℚ :=
  (searchSim (simVec corpus q) maxCount minSim).2

/-- Result shape of the source's `search`: on success an array holding the
record set (ids) and the weights array; on a caught exception an object with
an `error` message string (lines 246-248). -/
inductive JsResult where
  | ok (ids : List ℕ) (weights : List ℚ)
  | err (msg : String)
deriving DecidableEq

/-- Whether a result is the error shape `{ error: ... }`. -/
def JsResult.isErr : JsResult → Bool
  | .err _ => true
  | _ => false

/-- Full embedded `search`: every operation the source performs on the
modelled data (record lookup, matrix multiply, sort, loop, record-set
construction) is total, so the `try`/`catch` never produces the error shape
and the function always returns `ok` with the accumulated ids and weights. -/
def search (corpus : List (List ℚ)) (q : List ℚ) (maxCount : ℤ) (minSim : ℚ) : JsResult :=
  JsResult.ok (searchIds corpus q maxCount minSim) (searchWeights corpus q maxCount minSim)

/-- Walk of the emission loop over already-paired `(id, score)` entries, as
the spec's step 4 describes the source loop: emit from the top while the
score clears the threshold, stop at the first failure or after `maxCount`
emissions. -/
def walkPairs (minSim : ℚ) : ℕ → List (ℕ × ℚ) → List (ℕ × ℚ)
  | 0, _ => []
  | _ + 1, [] => []
  | n + 1, p :: rest =>
    if p.2 < minSim then []
    else p :: walkPairs minSim n rest

/-- Declarative reading from the spec's words: first filter the sorted list to
scores at or above the threshold, then truncate to the first `maxCount`
entries. -/
def filterThenTake (minSim : ℚ) (maxCount : ℕ) (l : List (ℕ × ℚ)) : List (ℕ × ℚ) :=
  (l.filter (fun p => decide (minSim ≤ p.2))).take maxCount

/-- Squared Euclidean norm of a feature vector. -/
def normSq (v : List ℚ) : ℚ :=
  (v.map (fun x => x * x)).sum

/-- Modelled from the spec: cosine similarity of a document vector against the
query, `dot(doc, query) / (‖doc‖ · ‖query‖)`, "with the convention that
score = 0 when either vector has zero norm (avoids division by zero)". The
source delegates scoring to the library's sparse matrix multiply over
pre-normalized feature vectors, so the division and the zero-norm convention
are not implemented in this repository. A vector has zero norm exactly when
its squared norm is zero. -/
noncomputable def cosineSim (d q : List ℚ) : ℝ :=
  if normSq d = 0 ∨ normSq q = 0 then 0
  else (dot d q : ℝ) / (Real.sqrt (normSq d) * Real.sqrt (normSq q))

/-- Cosine scores of a whole corpus against a query, in corpus order. -/
noncomputable def specScores (corpus : List (List ℚ)) (q : List ℚ) : List ℝ :=
  corpus.map (fun d => cosineSim d q)

/-- Error kinds of the generalized component. -/
inductive SearchError where
  | dimensionMismatch (docId : ℕ)
deriving DecidableEq

/-- Index of the first document whose dimensionality differs from the query's,
if any. -/
def firstBadIdx (q : List ℚ) : List (List ℚ) → Option ℕ
  | [] => none
  | d :: rest =>
    if d.length ≠ q.length then some 0
    else (firstBadIdx q rest).map (· + 1)

/-- Modelled from the spec: search with the dimensionality check performed at
the boundary. The source obtains the corpus matrix and the query vector from
one shared feature space, so a dimensionality mismatch cannot arise there and
no check exists in this repository; the spec requires a `DimensionMismatch`
failure naming the offending document id, aborting the whole search. An
`Except.error` result carries no ids and no weights, so no partial results
accompany the failure. -/
def searchChecked (corpus : List (List ℚ)) (q : List ℚ) (maxCount : ℤ) (minSim : ℚ) :
    Except SearchError (List ℕ × List ℚ) :=
  match firstBadIdx q corpus with
  | some i => Except.error (SearchError.dimensionMismatch i)
  | none => Except.ok (searchSim (simVec corpus q) maxCount minSim)

/-- Explicit state threading for the statelessness claim: the source's
`search` reads the store and the feature space (here: the document list) and
mutates nothing — `newRecord` creates a transient record the source notes "is
NOT stored in the database", and the remaining operations are pure library
math on local values. -/
structure Db where
  docs : List (List ℚ)

/-- State-passing form of `search`: the database state is read and returned
unchanged next to the result. -/
def searchSt (db : Db) (q : List ℚ) (maxCount : ℤ) (minSim : ℚ) : Db × JsResult :=
  (db, search db.docs q maxCount minSim)

-- Basic facts about the sort permutation and the walk.

theorem sortPerm_length (sim : List ℚ) : (sortPerm sim).length = sim.length := by
  have h := (List.perm_insertionSort (rankLE sim) (List.range sim.length)).length_eq
  simp only [List.length_range] at h
  exact h

theorem sortPerm_sorted (sim : List ℚ) : List.Sorted (rankLE sim) (sortPerm sim) :=
  List.sorted_insertionSort (rankLE sim) (List.range sim.length)

theorem sortPerm_nodup (sim : List ℚ) : (sortPerm sim).Nodup := by
  have h := List.perm_insertionSort (rankLE sim) (List.range sim.length)
  exact h.nodup_iff.mpr (List.nodup_range _)

theorem walk_nil (sim : List ℚ) (ms : ℚ) (n : ℕ) : walk sim ms n [] = ([], []) := by
  cases n <;> rfl

theorem walk_ids_length_le (sim : List ℚ) (ms : ℚ) :
    ∀ (n : ℕ) (l : List ℕ), ((walk sim ms n l).1).length ≤ n := by
  intro n
  induction n with
  | zero => intro l; simp [walk]
  | succ n ih =>
    intro l
    cases l with
    | nil => simp [walk]
    | cons i rest =>
      by_cases h : simD sim i < ms
      · simp [walk, h]
      · simpa [walk, h] using ih rest

theorem walk_ids_sublist (sim : List ℚ) (ms : ℚ) :
    ∀ (n : ℕ) (l : List ℕ), List.Sublist ((walk sim ms n l).1) l := by
  intro n
  induction n with
  | zero => intro l; simp [walk]
  | succ n ih =>
    intro l
    cases l with
    | nil => simp [walk]
    | cons i rest =>
      by_cases h : simD sim i < ms
      · simp [walk, h]
      · simpa [walk, h] using (ih rest).cons₂ i

theorem walk_snd_eq_map (sim : List ℚ) (ms : ℚ) :
    ∀ (n : ℕ) (l : List ℕ), (walk sim ms n l).2 = ((walk sim ms n l).1).map (simD sim) := by
  intro n
  induction n with
  | zero => intro l; simp [walk]
  | succ n ih =>
    intro l
    cases l with
    | nil => simp [walk]
    | cons i rest =>
      by_cases h : simD sim i < ms
      · simp [walk, h]
      · simpa [walk, h] using ih rest

theorem walk_weights_ge (sim : List ℚ) (ms : ℚ) :
    ∀ (n : ℕ) (l : List ℕ) (w : ℚ), w ∈ (walk sim ms n l).2 → ms ≤ w := by
  intro n
  induction n with
  | zero => intro l w hw; simp [walk] at hw
  | succ n ih =>
    intro l
    cases l with
    | nil => intro w hw; simp [walk] at hw
    | cons i rest =>
      intro w hw
      by_cases h : simD sim i < ms
      · simp [walk, h] at hw
      · simp [walk, h] at hw
        rcases hw with hw | hw
        · exact hw ▸ le_of_not_lt h
        · exact ih rest w hw


theorem firstBadIdx_spec (q : List ℚ) :
    ∀ corpus : List (List ℚ), (∃ d ∈ corpus, d.length ≠ q.length) →
      ∃ i d, corpus.get? i = some d ∧ d.length ≠ q.length ∧
        firstBadIdx q corpus = some i := by
  intro corpus
  induction corpus with
  | nil => rintro ⟨d, hd, _⟩; simp at hd
  | cons a t ih =>
    rintro ⟨d, hd, hlen⟩
    by_cases ha : a.length ≠ q.length
    · exact ⟨0, a, rfl, ha, by simp [firstBadIdx, ha]⟩
    · have hdt : d ∈ t := by
        rcases List.mem_cons.mp hd with h | h
        · exact absurd (h ▸ hlen) ha
        · exact h
      rcases ih ⟨d, hdt, hlen⟩ with ⟨i, d', hget, hlen', hfb⟩
      exact ⟨i + 1, d', by simpa using hget, hlen', by simp [firstBadIdx, ha, hfb]⟩

theorem searchSim_eq (sim : List ℚ) (mc : ℤ) (ms : ℚ) :
    searchSim sim mc ms =
      walk sim ms
        (if ((sortPerm sim).length : ℤ) < mc then ((sortPerm sim).length : ℤ) else mc).toNat
        (sortPerm sim) := rfl

theorem zip_self_map (f : ℕ → ℚ) :
    ∀ l : List ℕ, l.zip (l.map f) = l.map (fun i => (i, f i)) := by
  intro l
  induction l with
  | nil => rfl
  | cons a t ih => simp [ih]

theorem simVec_getD (c : List (List ℚ)) (q : List ℚ) :
    ∀ i : ℕ, simD (simVec c q) i = dot (c.getD i []) q := by
  induction c with
  | nil => intro i; simp [simVec, simD, dot, List.getD]
  | cons a t ih =>
    intro i
    cases i with
    | zero => simp [simVec, simD, List.getD_cons_zero]
    | succ n => simpa [simVec, simD, List.getD_cons_succ] using ih n

/-- C1: the sequence returned by `search` has length at most
`min(maxCount, |corpus|)`; when `maxCount` exceeds the corpus size it is
clamped to the corpus size before results are emitted. -/
theorem search_length_le_min (c : List (List ℚ)) (q : List ℚ) (mc : ℤ) (ms : ℚ)
    (_h : 0 ≤ mc) :
    (searchIds c q mc ms).length ≤ min mc.toNat c.length := by
  have hlen : (sortPerm (simVec c q)).length = c.length := by
    rw [sortPerm_length]; simp [simVec]
  rw [searchIds, searchSim_eq]
  refine le_min ?_ ?_
  · refine le_trans (walk_ids_length_le _ _ _ _) ?_
    by_cases hc : ((sortPerm (simVec c q)).length : ℤ) < mc
    · rw [if_pos hc]
      exact Int.toNat_le_toNat hc.le
    · rw [if_neg hc]
  · refine le_trans (List.Sublist.length_le (walk_ids_sublist _ _ _ _)) ?_
    rw [hlen]

theorem search_length_le_min_witness :
    (searchIds [[(1 : ℚ)], [2]] [1] 5 0).length ≤
      min (Int.toNat 5) ([[(1 : ℚ)], [2]] : List (List ℚ)).length :=
  search_length_le_min [[(1 : ℚ)], [2]] [1] 5 0 (by decide)

/-- C2: every weight returned by `search` is at least `minSimilarity`, and the
threshold is inclusive: the loop does not break on an entry whose score
equals `minSimilarity` exactly (it emits it at the front), only entries with
score strictly below the threshold are excluded. -/
theorem search_weights_ge_min (c : List (List ℚ)) (q : List ℚ) (mc : ℤ) (ms : ℚ) :
    (∀ w ∈ searchWeights c q mc ms, ms ≤ w) ∧
      (∀ (sim : List ℚ) (i : ℕ) (rest : List ℕ) (n : ℕ),
        ms ≤ simD sim i → ((walk sim ms (n + 1) (i :: rest)).1).head? = some i) := by
  constructor
  · intro w hw
    exact walk_weights_ge (simVec c q) ms _ _ w hw
  · intro sim i rest n hle
    simp [walk, not_lt.mpr hle]

theorem search_weights_ge_min_witness :
    ((0 : ℚ) ≤ 0) ∧ ((walk [(0 : ℚ)] 0 (0 + 1) [0]).1).head? = some 0 :=
  ⟨(search_weights_ge_min [[(1 : ℚ)]] [] 1 0).1 0 (by decide),
   (search_weights_ge_min [[(1 : ℚ)]] [] 1 0).2 [(0 : ℚ)] 0 [] 0 (by decide)⟩

/-- C3: the returned (id, weight) pairs are sorted by weight in strictly
descending order except that pairs with equal weights appear with strictly
ascending document ids. -/
theorem search_sorted_desc (c : List (List ℚ)) (q : List ℚ) (mc : ℤ) (ms : ℚ) :
    ((searchIds c q mc ms).zip (searchWeights c q mc ms)).Pairwise
      (fun a b => b.2 < a.2 ∨ (a.2 = b.2 ∧ a.1 < b.1)) := by
  have hsub : List.Sublist (searchIds c q mc ms) (sortPerm (simVec c q)) :=
    walk_ids_sublist (simVec c q) ms _ _
  have hrank : (searchIds c q mc ms).Pairwise (rankLE (simVec c q)) :=
    List.Pairwise.sublist hsub (sortPerm_sorted (simVec c q))
  have hnd : (searchIds c q mc ms).Nodup :=
    List.Nodup.sublist hsub (sortPerm_nodup (simVec c q))
  have hmap : searchWeights c q mc ms =
      (searchIds c q mc ms).map (simD (simVec c q)) :=
    walk_snd_eq_map (simVec c q) ms _ _
  rw [hmap, zip_self_map, List.pairwise_map]
  refine (hrank.and hnd).imp ?_
  rintro i j ⟨hr, hne⟩
  rcases hr with hlt | ⟨heq, hle⟩
  · exact Or.inl hlt
  · exact Or.inr ⟨heq, lt_of_le_of_ne hle hne⟩

/-- C4: on an empty corpus, `search` succeeds with an empty result (no ids, no
weights), for every query, `maxCount` and `minSimilarity`. -/
theorem search_empty_corpus (q : List ℚ) (mc : ℤ) (ms : ℚ) :
    search [] q mc ms = JsResult.ok [] [] := by
  have h : searchSim (simVec [] q) mc ms = ([], []) := walk_nil _ _ _
  simp [search, searchIds, searchWeights, h]

/-- C5: cosine similarity follows the zero-norm convention: when the document
or the query vector has zero norm the score is `0` (no division-by-zero
failure); in particular an all-zero query scores `0` against every document
of any corpus. -/
theorem cosineSim_zero_norm (corpus : List (List ℚ)) (d q : List ℚ) :
    ((normSq d = 0 ∨ normSq q = 0) → cosineSim d q = 0) ∧
      (normSq q = 0 → ∀ s ∈ specScores corpus q, s = 0) := by
  constructor
  · intro h
    unfold cosineSim
    rw [if_pos h]
  · intro hq s hs
    unfold specScores at hs
    rcases List.mem_map.mp hs with ⟨d', _, rfl⟩
    unfold cosineSim
    rw [if_pos (Or.inr hq)]

theorem cosineSim_zero_norm_witness :
    cosineSim [1, 2] [0, 0, 0] = 0 ∧ cosineSim [1, 0] [0, 0, 0] = 0 :=
  ⟨(cosineSim_zero_norm [[(1 : ℚ), 0]] [1, 2] [0, 0, 0]).1 (Or.inr (by simp [normSq])),
   (cosineSim_zero_norm [[(1 : ℚ), 0]] [1, 2] [0, 0, 0]).2 (by simp [normSq])
     (cosineSim [1, 0] [0, 0, 0]) (by simp [specScores])⟩

/-- C6 counterexample: with a negative `maxCount` the source `search` does not
fail; at `maxCount = -1` it returns the success shape with an empty record
set and empty weights, and its result is not the error shape. -/
theorem search_negative_maxCount_cex :
    search [[(1 : ℚ)]] [1] (-1) (1 / 20) = JsResult.ok [] [] ∧
      (search [[(1 : ℚ)]] [1] (-1) (1 / 20)).isErr = false := by
  constructor
  · rfl
  · rfl

/-- C6 amended: for every negative `maxCount`, `search` returns the success
shape with no ids and no weights (the loop body never runs); no
InvalidArgument error is raised, as no such check exists in the source. -/
theorem search_negative_maxCount (c : List (List ℚ)) (q : List ℚ) (ms : ℚ) (mc : ℤ)
    (h : mc < 0) : search c q mc ms = JsResult.ok [] [] := by
  have hcl : ¬ (((sortPerm (simVec c q)).length : ℤ) < mc) :=
    not_lt.mpr (le_trans h.le (Int.natCast_nonneg _))
  have hsim : searchSim (simVec c q) mc ms = ([], []) := by
    rw [searchSim_eq, if_neg hcl, Int.toNat_of_nonpos h.le]
    rfl
  simp [search, searchIds, searchWeights, hsim]

theorem search_negative_maxCount_witness :
    search [[(1 : ℚ)]] [1] (-1) (1 / 20) = JsResult.ok [] [] :=
  search_negative_maxCount [[(1 : ℚ)]] [1] (1 / 20) (-1) (by decide)

/-- C7: when some document's dimensionality differs from the query's, the
checked search fails with `DimensionMismatch` naming an offending document
id, and being an `Except.error` it carries no partial results. -/
theorem searchChecked_dim_mismatch (c : List (List ℚ)) (q : List ℚ) (mc : ℤ) (ms : ℚ)
    (h : ∃ d ∈ c, d.length ≠ q.length) :
    ∃ i d, c.get? i = some d ∧ d.length ≠ q.length ∧
      searchChecked c q mc ms = Except.error (SearchError.dimensionMismatch i) := by
  rcases firstBadIdx_spec q c h with ⟨i, d, hget, hlen, hfb⟩
  refine ⟨i, d, hget, hlen, ?_⟩
  unfold searchChecked
  rw [hfb]

theorem searchChecked_dim_mismatch_witness :
    ∃ i d, ([[(1 : ℚ), 2], [1]] : List (List ℚ)).get? i = some d ∧
      d.length ≠ ([(1 : ℚ), 2] : List ℚ).length ∧
      searchChecked [[(1 : ℚ), 2], [1]] [1, 2] 5 (1 / 20) =
        Except.error (SearchError.dimensionMismatch i) :=
  searchChecked_dim_mismatch [[(1 : ℚ), 2], [1]] [1, 2] 5 (1 / 20)
    ⟨[1], by decide, by decide⟩

/-- C8: over a list of (id, score) pairs with non-increasing scores, the
source's walk (emit while the score clears the threshold, break at the first
failure, stop after `maxCount` emissions) equals filtering to scores at or
above the threshold and then truncating to the first `maxCount` entries. -/
theorem walkPairs_eq_filterThenTake (ms : ℚ) :
    ∀ (l : List (ℕ × ℚ)) (n : ℕ), (l.Pairwise fun a b => b.2 ≤ a.2) →
      walkPairs ms n l = filterThenTake ms n l := by
  intro l
  induction l with
  | nil =>
    intro n _
    cases n <;> simp [walkPairs, filterThenTake]
  | cons p t ih =>
    intro n hp
    have hd : ∀ b ∈ t, b.2 ≤ p.2 := (List.pairwise_cons.mp hp).1
    have ht : t.Pairwise (fun a b => b.2 ≤ a.2) := (List.pairwise_cons.mp hp).2
    cases n with
    | zero => simp [walkPairs, filterThenTake]
    | succ n =>
      by_cases hc : p.2 < ms
      · have hfilter : (p :: t).filter (fun x => decide (ms ≤ x.2)) = [] := by
          rw [List.filter_eq_nil_iff]
          intro a ha
          simp only [decide_eq_true_eq]
          rcases List.mem_cons.mp ha with rfl | hat
          · exact not_le.mpr hc
          · exact not_le.mpr (lt_of_le_of_lt (hd a hat) hc)
        simp [walkPairs, hc, filterThenTake, hfilter]
      · have hle : ms ≤ p.2 := not_lt.mp hc
        have h1 : walkPairs ms (n + 1) (p :: t) = p :: walkPairs ms n t := by
          simp [walkPairs, hc]
        have h2 : filterThenTake ms (n + 1) (p :: t) = p :: filterThenTake ms n t := by
          simp [filterThenTake, List.filter_cons, hle]
        rw [h1, h2, ih n ht]

theorem walkPairs_eq_filterThenTake_witness :
    walkPairs (3 / 2 : ℚ) 5 [(0, 2), (1, 1)] = filterThenTake (3 / 2 : ℚ) 5 [(0, 2), (1, 1)] :=
  walkPairs_eq_filterThenTake (3 / 2) [(0, 2), (1, 1)] 5 (by decide)

/-- C9: `search` is deterministic and stateless. In the state-passing
embedding the database state comes back unchanged, and a second call run on
the state left by the first returns the same result as the first. The
source's only interactions with shared state are reads; the transient query
record is, per the source's own comment, "NOT stored in the database". -/
theorem search_stateless (db : Db) (q : List ℚ) (mc : ℤ) (ms : ℚ) :
    (searchSt db q mc ms).1 = db ∧
      (searchSt (searchSt db q mc ms).1 q mc ms).2 = (searchSt db q mc ms).2 :=
  ⟨rfl, rfl⟩

/-- C10: the returned id and weight sequences have equal length and correspond
positionwise: the weight list is exactly the score of each returned id, and
the score of id `i` is the inner product of the `i`-th corpus document with
the query. -/
theorem search_ids_weights_aligned (c : List (List ℚ)) (q : List ℚ) (mc : ℤ) (ms : ℚ) :
    (searchWeights c q mc ms).length = (searchIds c q mc ms).length ∧
      searchWeights c q mc ms = (searchIds c q mc ms).map (simD (simVec c q)) ∧
      ∀ i : ℕ, simD (simVec c q) i = dot (c.getD i []) q := by
  have hmap : searchWeights c q mc ms =
      (searchIds c q mc ms).map (simD (simVec c q)) :=
    walk_snd_eq_map (simVec c q) ms _ _
  exact ⟨by rw [hmap, List.length_map], hmap, simVec_getD c q⟩

end NNSearch
